import Mathlib

/-!
Verification of the asteroseismic estimation pipeline of this repository:
the 2D autocorrelation-based estimation of the seismic observables numax
and deltanu from a stellar signal-to-noise power spectrum, and the seismic
scaling relations that turn (numax, deltanu, teff) into estimates of
stellar mass, radius and surface gravity.  The repository describes this
pipeline in its notebooks but ships no implementation of it, so every
definition below is modelled from the specification's description of the
algorithm.  Spectra are embedded as lists of (frequency, power) pairs;
real-valued quantities use `ℝ` where fractional powers are required and a
generic linear ordered field elsewhere, so that the combinatorial parts
can be evaluated on rational test data.
-/

namespace Seismology

/-- Modelled from the spec: the three error kinds of the pipeline
(`InvalidSpectrumError`, `NoPeakFoundError`, `InvalidInputError`). -/
inductive SeismologyError where
  | invalidSpectrum
  | noPeakFound
  | invalidInput
deriving DecidableEq

/-- Modelled from the spec: solar reference constant for numax,
3090 microhertz. -/
def numaxSun : ℝ := 3090

/-- Modelled from the spec: solar reference constant for deltanu,
135.1 microhertz. -/
def deltanuSun : ℝ := 135.1

/-- Modelled from the spec: solar reference effective temperature,
5777.2 kelvin. -/
def teffSun : ℝ := 5777.2

/-- Modelled from the spec: the standard solar surface gravity constant
fixing the absolute gravity scale of the log g scaling relation (the spec
fixes it "by definition" without giving a numeric value; the value used
here is the conventional solar surface gravity in cgs units). -/
def gSun : ℝ := 27420

/-- Modelled from the spec: `estimate_mass(numax, deltanu, teff)`, the
seismic mass scaling relation
M / Msun = (numax/numaxSun)^3 * (deltanu/deltanuSun)^(-4) *
(teff/teffSun)^(3/2), failing with `InvalidInputError` on non-positive
input (non-finite inputs are not representable in `ℝ`). -/
noncomputable def estimate_mass (ν Δν T : ℝ) : Except SeismologyError ℝ :=
  if 0 < ν ∧ 0 < Δν ∧ 0 < T then
    .ok ((ν / numaxSun) ^ (3 : ℕ) * (Δν / deltanuSun) ^ (-4 : ℤ) *
      (T / teffSun) ^ (1.5 : ℝ))
  else .error .invalidInput

/-- Modelled from the spec: `estimate_radius(numax, deltanu, teff)`, the
seismic radius scaling relation
R / Rsun = (numax/numaxSun) * (deltanu/deltanuSun)^(-2) *
(teff/teffSun)^(1/2), failing with `InvalidInputError` on non-positive
input. -/
noncomputable def estimate_radius (ν Δν T : ℝ) : Except SeismologyError ℝ :=
  if 0 < ν ∧ 0 < Δν ∧ 0 < T then
    .ok ((ν / numaxSun) * (Δν / deltanuSun) ^ (-2 : ℤ) *
      (T / teffSun) ^ (0.5 : ℝ))
  else .error .invalidInput

/-- Modelled from the spec: `estimate_logg(numax, teff)`, the seismic
surface gravity scaling relation
g / gSun = (numax/numaxSun) * (teff/teffSun)^(1/2), reported as log10 of
the gravity, failing with `InvalidInputError` on non-positive input
(deltanu does not appear in the gravity relation). -/
noncomputable def estimate_logg (ν T : ℝ) : Except SeismologyError ℝ :=
  if 0 < ν ∧ 0 < T then
    .ok (Real.logb 10 (gSun * ((ν / numaxSun) * (T / teffSun) ^ (0.5 : ℝ))))
  else .error .invalidInput

section Pipeline

variable {α : Type} [LinearOrderedField α]

/-- Modelled from the spec: a spectrum is an ordered sequence of
(frequency, power) pairs with strictly increasing frequencies. -/
def scalePowers (c : α) (s : List (α × α)) : List (α × α) :=
  s.map (fun p => (p.1, c * p.2))

/-- Modelled from the spec: the lowest frequency of a spectrum (the head
of its increasing frequency axis). -/
def fminS (s : List (α × α)) : α := (s.map Prod.fst).headD 0

/-- Modelled from the spec: the highest frequency of a spectrum (the last
entry of its increasing frequency axis). -/
def fmaxS (s : List (α × α)) : α := (s.map Prod.fst).getLastD 0

/-- Modelled from the spec: the autocorrelation of a segment of power
values at integer lag `k` — the sum of products of the segment with its
lag-`k` shifted copy. -/
def acf (xs : List α) (k : ℕ) : α :=
  (List.zipWith (fun a b => a * b) xs (xs.drop k)).sum

/-- Modelled from the spec: the lag-`k` autocorrelation normalized by the
zero-lag value. -/
def normACF (xs : List α) (k : ℕ) : α := acf xs k / acf xs 0

/-- Modelled from the spec: the centers of the sliding windows of
`estimate_numax`: the spectrum's own frequency points, keeping only those
whose window of total width `W` lies fully inside the spectrum's frequency
range (the edge policy: windows extending beyond the bounds are excluded,
not zero-padded). -/
def windowCenters (s : List (α × α)) (W : α) : List α :=
  (s.map Prod.fst).filter
    (fun c => decide (fminS s ≤ c - W / 2 ∧ c + W / 2 ≤ fmaxS s))

/-- Modelled from the spec: the power values of the spectrum points lying
inside the window of width `W` centered at frequency `c`. -/
def windowSegment (s : List (α × α)) (W : α) (c : α) : List α :=
  (s.filter (fun p => decide (c - W / 2 ≤ p.1 ∧ p.1 ≤ c + W / 2))).map
    Prod.snd

/-- Modelled from the spec: the collapsed value of one window — the
normalized autocorrelation curve of the windowed segment summed over all
lags. -/
def collapsedVal (xs : List α) : α :=
  ((List.range xs.length).map (normACF xs)).sum

/-- Modelled from the spec: the collapsed 1D correlation curve versus
window-center frequency, the lag-collapsed 2D autocorrelation map. -/
def collapseACF (s : List (α × α)) (W : α) : List (α × α) :=
  (windowCenters s W).map (fun c => (c, collapsedVal (windowSegment s W c)))

/-- Modelled from the spec: boxcar smoothing of the collapsed curve (a
three-point moving mean, truncated at the edges). -/
def smoothVals (ys : List α) : List α :=
  (List.range ys.length).map (fun i =>
    let seg := (ys.drop (i - 1)).take (min (i + 2) ys.length - (i - 1))
    seg.sum / (seg.length : α))

/-- Index of the first occurrence of the maximum value of a list
(0 on the empty list). -/
def idxOfMax : List α → ℕ
  | [] => 0
  | [_] => 0
  | x :: y :: ys =>
      if x < (y :: ys).getD (idxOfMax (y :: ys)) 0 then idxOfMax (y :: ys) + 1
      else 0

/-- Modelled from the spec: the interior maximum of the smoothed collapsed
curve — the position of the curve's maximum when that position is an
interior point, and `none` when the maximum sits at an edge (no interior
maximum). -/
def interiorIdx (ys : List α) : Option ℕ :=
  if 0 < idxOfMax ys ∧ idxOfMax ys + 1 < ys.length then some (idxOfMax ys)
  else none

/-- Modelled from the spec: `estimate_numax(snr_spectrum, window_width)`.
Slides windows of width `W` across the spectrum (windows beyond the bounds
excluded), collapses the per-window normalized autocorrelation over lag,
smooths the collapsed curve, and returns the frequency at its maximum;
fails with `InvalidSpectrumError` when the frequency span is shorter than
the window width, and with `NoPeakFoundError` when the smoothed collapsed
curve has no interior maximum. -/
def estimate_numax (s : List (α × α)) (W : α) : Except SeismologyError α :=
  if fmaxS s - fminS s < W then .error .invalidSpectrum
  else
    match interiorIdx (smoothVals ((collapseACF s W).map Prod.snd)) with
    | some i => .ok (((collapseACF s W).map Prod.fst).getD i 0)
    | none => .error .noPeakFound

/-- Modelled from the spec: the slowly varying background at index `i`,
estimated by a moving mean of half-width `w` points (truncated at the
edges). -/
def movingMean (ys : List α) (w : ℕ) (i : ℕ) : α :=
  let seg := (ys.drop (i - w)).take (min (i + w + 1) ys.length - (i - w))
  seg.sum / (seg.length : α)

/-- Modelled from the spec: `flatten(spectrum, filter_width)`, the
preprocessor turning a power spectrum into a signal-to-noise spectrum by
dividing each power by the estimated background; fails with
`InvalidSpectrumError` when fewer than 2 × filter_width points are
present. -/
def flatten (s : List (α × α)) (w : ℕ) :
    Except SeismologyError (List (α × α)) :=
  if s.length < 2 * w then .error .invalidSpectrum
  else .ok ((List.range s.length).map (fun i =>
    ((s.map Prod.fst).getD i 0,
      (s.map Prod.snd).getD i 0 / movingMean (s.map Prod.snd) w i)))

/-- Modelled from the spec: the sub-spectrum of the points whose frequency
lies in the closed band [lo, hi]. -/
def subSpectrum (s : List (α × α)) (lo hi : α) : List (α × α) :=
  s.filter (fun p => decide (lo ≤ p.1 ∧ p.1 ≤ hi))

/-- Modelled from the spec: the frequency-bin width of a (near-uniformly
spaced) spectrum, read off its first two points. -/
def binWidth : List (α × α) → α
  | a :: b :: _ => b.1 - a.1
  | _ => 0

/-- Modelled from the spec: the autocorrelation curve of a sub-spectrum
over lag, indexed by the lag expressed in frequency units (lag k of a
spectrum with bin width Δf sits at k·Δf). -/
def acfCurve (s : List (α × α)) : List (α × α) :=
  (List.range (s.length - 1)).map
    (fun j => (((j + 1 : ℕ) : α) * binWidth s, acf (s.map Prod.snd) (j + 1)))

/-- Modelled from the spec: peak detection — index `i` is a local maximum
of the curve when it is interior and strictly above both neighbors. -/
def isPeakAt (ys : List α) (i : ℕ) : Prop :=
  0 < i ∧ i + 1 < ys.length ∧
    ys.getD (i - 1) 0 < ys.getD i 0 ∧ ys.getD (i + 1) 0 < ys.getD i 0

instance (ys : List α) (i : ℕ) : Decidable (isPeakAt ys i) := by
  unfold isPeakAt
  infer_instance

/-- Modelled from the spec: the lags (in frequency units) of the local
maxima of an autocorrelation curve. -/
def peakLags (curve : List (α × α)) : List α :=
  ((List.range curve.length).filter
    (fun i => decide (isPeakAt (curve.map Prod.snd) i))).map
    (fun i => (curve.map Prod.fst).getD i 0)

/-- The element of a list closest to a target value (first one on ties),
`none` on the empty list. -/
def closestTo (t : α) : List α → Option α
  | [] => none
  | d :: ds =>
    match closestTo t ds with
    | none => some d
    | some e => if |d - t| ≤ |e - t| then some d else some e

end Pipeline

/-- Modelled from the spec: the regime flag selecting the empirical
mode-envelope FWHM relation (main-sequence-like versus red-giant-like
stars); an explicit configuration input, not auto-detected. -/
inductive Regime where
  | mainSequence
  | redGiant
deriving DecidableEq

/-- Modelled from the spec: the regime-dependent empirical mode-envelope
FWHM relation: 0.25·numax for main-sequence stars and 0.66·numax^0.88 for
red giants. -/
noncomputable def fwhmOf : Regime → ℝ → ℝ
  | .mainSequence, ν => 0.25 * ν
  | .redGiant, ν => 0.66 * ν ^ (0.88 : ℝ)

/-- Modelled from the spec: the empirical prior for deltanu,
0.294·numax^0.772. -/
noncomputable def deltanuPrior (ν : ℝ) : ℝ := 0.294 * ν ^ (0.772 : ℝ)

/-- Modelled from the spec: the deltanu measurement on an already
restricted sub-spectrum: compute its autocorrelation curve over lag, find
the local maxima whose lag falls in a neighborhood of the empirical prior
(here the band [prior/2, 3·prior/2]), and return the lag closest to the
prior; fails with `NoPeakFoundError` when no local maximum lies in the
neighborhood. -/
noncomputable def deltanuFromRegion (region : List (ℝ × ℝ)) (ν : ℝ) :
    Except SeismologyError ℝ :=
  match closestTo (deltanuPrior ν)
      ((peakLags (acfCurve region)).filter
        (fun d => decide (deltanuPrior ν / 2 ≤ d ∧
          d ≤ 3 * deltanuPrior ν / 2))) with
  | some d => .ok d
  | none => .error .noPeakFound

/-- Modelled from the spec: `estimate_deltanu(snr_spectrum, numax)` with
the explicit regime flag: restrict the spectrum to one FWHM total width
centered on numax and measure deltanu on that region. -/
noncomputable def estimate_deltanu (s : List (ℝ × ℝ)) (ν : ℝ)
    (r : Regime) : Except SeismologyError ℝ :=
  deltanuFromRegion (subSpectrum s (ν - fwhmOf r ν / 2) (ν + fwhmOf r ν / 2)) ν

/-- A concrete SNR sub-spectrum over `ℝ` on which `estimate_deltanu`
succeeds: four points spaced 0.08 apart around numax = 1 whose powers
alternate with period two bins, giving an autocorrelation peak at lag
0.16. -/
noncomputable def exDSpec : List (ℝ × ℝ) :=
  [(0.88, 1), (0.96, 0), (1.04, 1), (1.12, 0)]

/-- A small concrete SNR spectrum over `ℚ` used to exercise the numax
estimator on explicit inputs. -/
def exSpec : List (ℚ × ℚ) := [(0, 1), (1, 2), (2, 5), (3, 2), (4, 1)]

/-- A concrete SNR spectrum over `ℚ` on which `estimate_numax` succeeds:
the central window is perfectly self-correlated, so the smoothed collapsed
curve peaks at the interior frequency 3. -/
def exSpecPeak : List (ℚ × ℚ) :=
  [(0, 5), (1, 0), (2, 1), (3, 1), (4, 1), (5, 0), (6, 5)]

end Seismology

deriving instance DecidableEq for Except

namespace Seismology

lemma solar_mass_eval : estimate_mass 3090 135.1 5777.2 = .ok 1 := by
  rw [estimate_mass, if_pos (by norm_num)]
  norm_num [numaxSun, deltanuSun, teffSun, Real.one_rpow]

lemma solar_radius_eval : estimate_radius 3090 135.1 5777.2 = .ok 1 := by
  rw [estimate_radius, if_pos (by norm_num)]
  norm_num [numaxSun, deltanuSun, teffSun, Real.one_rpow]

lemma solar_logg_eval :
    estimate_logg 3090 5777.2 = .ok (Real.logb 10 gSun) := by
  rw [estimate_logg, if_pos (by norm_num)]
  norm_num [numaxSun, teffSun, Real.one_rpow]

/-- C1: for every positive finite numax, deltanu and teff, `estimate_mass`
returns (numax/3090)^3 * (deltanu/135.1)^(-4) * (teff/5777.2)^1.5 in solar
masses, the solar reference constants being exactly 3090, 135.1 and
5777.2. -/
theorem C1_mass_formula (ν Δν T : ℝ) (hν : 0 < ν) (hΔ : 0 < Δν)
    (hT : 0 < T) :
    estimate_mass ν Δν T =
      .ok ((ν / 3090) ^ (3 : ℕ) * (Δν / 135.1) ^ (-4 : ℤ) *
        (T / 5777.2) ^ (1.5 : ℝ)) ∧
    numaxSun = 3090 ∧ deltanuSun = 135.1 ∧ teffSun = 5777.2 := by
  refine ⟨?_, rfl, rfl, rfl⟩
  rw [estimate_mass, if_pos ⟨hν, hΔ, hT⟩]
  rfl

theorem C1_mass_formula_witness :
    estimate_mass 3090 135.1 5777.2 =
      .ok ((3090 / 3090 : ℝ) ^ (3 : ℕ) * ((135.1 : ℝ) / 135.1) ^ (-4 : ℤ) *
        ((5777.2 : ℝ) / 5777.2) ^ (1.5 : ℝ)) :=
  (C1_mass_formula 3090 135.1 5777.2 (by norm_num) (by norm_num)
    (by norm_num)).1

/-- C2: on exactly the solar reference inputs (numax = 3090, deltanu =
135.1, teff = 5777.2) the three scaling relations return the solar
reference values: mass 1, radius 1, and log g equal to the standard solar
surface gravity in log10 form.  Over the exact rational/real embedding the
fixed point is exact, so it holds within any floating-point tolerance. -/
theorem C2_solar_fixed_point :
    estimate_mass 3090 135.1 5777.2 = .ok 1 ∧
    estimate_radius 3090 135.1 5777.2 = .ok 1 ∧
    estimate_logg 3090 5777.2 = .ok (Real.logb 10 gSun) :=
  ⟨solar_mass_eval, solar_radius_eval, solar_logg_eval⟩

/-- C6: each scaling relation fails with `InvalidInputError` exactly when
one of its inputs is non-positive, and succeeds on all positive inputs
(non-finite values do not exist in the real-number embedding, so the
non-positivity test is the whole validity condition). -/
theorem C6_scaling_input_validation (ν Δν T : ℝ) :
    ((∃ m, estimate_mass ν Δν T = .ok m) ↔ (0 < ν ∧ 0 < Δν ∧ 0 < T)) ∧
    (estimate_mass ν Δν T = .error .invalidInput ↔
      ¬(0 < ν ∧ 0 < Δν ∧ 0 < T)) ∧
    ((∃ r, estimate_radius ν Δν T = .ok r) ↔ (0 < ν ∧ 0 < Δν ∧ 0 < T)) ∧
    (estimate_radius ν Δν T = .error .invalidInput ↔
      ¬(0 < ν ∧ 0 < Δν ∧ 0 < T)) ∧
    ((∃ g, estimate_logg ν T = .ok g) ↔ (0 < ν ∧ 0 < T)) ∧
    (estimate_logg ν T = .error .invalidInput ↔ ¬(0 < ν ∧ 0 < T)) := by
  unfold estimate_mass estimate_radius estimate_logg
  by_cases h3 : 0 < ν ∧ 0 < Δν ∧ 0 < T <;>
    by_cases h2 : 0 < ν ∧ 0 < T
  · simp [h3, h2]
  · exact absurd ⟨h3.1, h3.2.2⟩ h2
  · have hΔ : ¬ 0 < Δν := fun h => h3 ⟨h2.1, h, h2.2⟩
    simp [h3, h2, hΔ]
  · simp [h3, h2]

/-- C10: the three scaling relations are mutually consistent with the
definition of surface gravity: on every positive input triple, the mass
ratio equals the gravity ratio implied by the returned log g times the
square of the radius ratio, exactly. -/
theorem C10_mass_gravity_radius_consistency (ν Δν T M R L : ℝ)
    (hν : 0 < ν) (hΔ : 0 < Δν) (hT : 0 < T)
    (hM : estimate_mass ν Δν T = .ok M)
    (hR : estimate_radius ν Δν T = .ok R)
    (hL : estimate_logg ν T = .ok L) :
    M = ((10 : ℝ) ^ L / gSun) * R ^ (2 : ℕ) := by
  rw [estimate_mass, if_pos ⟨hν, hΔ, hT⟩] at hM
  rw [estimate_radius, if_pos ⟨hν, hΔ, hT⟩] at hR
  rw [estimate_logg, if_pos ⟨hν, hT⟩] at hL
  rw [Except.ok.injEq] at hM hR hL
  subst hM hR hL
  have hx : (0 : ℝ) < T / teffSun := by
    have : (0 : ℝ) < teffSun := by norm_num [teffSun]
    positivity
  have hgs : (0 : ℝ) < gSun := by norm_num [gSun]
  have harg : (0 : ℝ) <
      gSun * ((ν / numaxSun) * (T / teffSun) ^ (0.5 : ℝ)) := by
    have hνs : (0 : ℝ) < numaxSun := by norm_num [numaxSun]
    have h1 : (0 : ℝ) < ν / numaxSun := by positivity
    have h2 : (0 : ℝ) < (T / teffSun) ^ (0.5 : ℝ) :=
      Real.rpow_pos_of_pos hx _
    positivity
  rw [Real.rpow_logb (by norm_num) (by norm_num) harg]
  have hhalf : ((T / teffSun) ^ (0.5 : ℝ)) ^ (2 : ℕ) = T / teffSun := by
    rw [← Real.rpow_natCast ((T / teffSun) ^ (0.5 : ℝ)) 2,
      ← Real.rpow_mul hx.le]
    norm_num
  have hsplit : (T / teffSun) ^ (1.5 : ℝ) =
      (T / teffSun) ^ (0.5 : ℝ) * (T / teffSun) := by
    have : (1.5 : ℝ) = 0.5 + 1 := by norm_num
    rw [this, Real.rpow_add hx, Real.rpow_one]
  have hz : ((Δν / deltanuSun) ^ (-2 : ℤ)) ^ (2 : ℕ) =
      (Δν / deltanuSun) ^ (-4 : ℤ) := by
    rw [← zpow_natCast (((Δν / deltanuSun)) ^ (-2 : ℤ)) 2, ← zpow_mul]
    norm_num
  rw [mul_pow, mul_pow, hhalf, hz, hsplit]
  rw [mul_div_cancel_left₀ _ hgs.ne']
  ring

theorem C10_mass_gravity_radius_consistency_witness :
    (1 : ℝ) = ((10 : ℝ) ^ Real.logb 10 gSun / gSun) * (1 : ℝ) ^ (2 : ℕ) :=
  C10_mass_gravity_radius_consistency 3090 135.1 5777.2 1 1
    (Real.logb 10 gSun) (by norm_num) (by norm_num) (by norm_num)
    solar_mass_eval solar_radius_eval solar_logg_eval

section PipelineLemmas

variable {α : Type} [LinearOrderedField α]

lemma map_fst_scale (c : α) (s : List (α × α)) :
    (scalePowers c s).map Prod.fst = s.map Prod.fst := by
  simp [scalePowers]

lemma fminS_scale (c : α) (s : List (α × α)) :
    fminS (scalePowers c s) = fminS s := by
  rw [fminS, map_fst_scale, fminS]

lemma fmaxS_scale (c : α) (s : List (α × α)) :
    fmaxS (scalePowers c s) = fmaxS s := by
  rw [fmaxS, map_fst_scale, fmaxS]

lemma windowCenters_scale (c : α) (s : List (α × α)) (W : α) :
    windowCenters (scalePowers c s) W = windowCenters s W := by
  rw [windowCenters, windowCenters, map_fst_scale]
  simp only [fminS_scale, fmaxS_scale]

lemma zipmul_scale (c : α) (l₁ l₂ : List α) :
    (List.zipWith (fun a b => a * b) (l₁.map (c * ·)) (l₂.map (c * ·))).sum
      = c ^ 2 * (List.zipWith (fun a b => a * b) l₁ l₂).sum := by
  induction l₁ generalizing l₂ with
  | nil => simp
  | cons a l ih =>
    cases l₂ with
    | nil => simp
    | cons b l₂ =>
      simp only [List.map_cons, List.zipWith_cons_cons, List.sum_cons, ih]
      ring

lemma acf_scale (c : α) (xs : List α) (k : ℕ) :
    acf (xs.map (c * ·)) k = c ^ 2 * acf xs k := by
  rw [acf, acf, ← List.map_drop]
  exact zipmul_scale c xs (xs.drop k)

lemma normACF_scale {c : α} (hc : c ≠ 0) (xs : List α) (k : ℕ) :
    normACF (xs.map (c * ·)) k = normACF xs k := by
  rw [normACF, normACF, acf_scale, acf_scale,
    mul_div_mul_left _ _ (pow_ne_zero 2 hc)]

lemma collapsedVal_scale {c : α} (hc : c ≠ 0) (xs : List α) :
    collapsedVal (xs.map (c * ·)) = collapsedVal xs := by
  rw [collapsedVal, collapsedVal, List.length_map]
  exact congrArg List.sum
    (List.map_congr_left fun k _ => normACF_scale hc xs k)

lemma windowSegment_scale (c : α) (s : List (α × α)) (W cen : α) :
    windowSegment (scalePowers c s) W cen =
      (windowSegment s W cen).map (c * ·) := by
  simp only [windowSegment, scalePowers, List.filter_map, List.map_map]
  rfl

lemma collapseACF_scale {c : α} (hc : c ≠ 0) (s : List (α × α)) (W : α) :
    collapseACF (scalePowers c s) W = collapseACF s W := by
  rw [collapseACF, collapseACF, windowCenters_scale]
  refine List.map_congr_left fun cen _ => ?_
  rw [windowSegment_scale, collapsedVal_scale hc]

lemma le_idxOfMax : ∀ (ys : List α) (j : ℕ), j < ys.length →
    ys.getD j 0 ≤ ys.getD (idxOfMax ys) 0
  | [], j, h => absurd h (by simp)
  | [x], j, h => by
    have hj : j = 0 := Nat.lt_one_iff.mp h
    subst hj
    simp [idxOfMax]
  | x :: y :: ys, j, h => by
    have ih := le_idxOfMax (y :: ys)
    by_cases hx : x < (y :: ys).getD (idxOfMax (y :: ys)) 0
    · rw [idxOfMax, if_pos hx]
      cases j with
      | zero => simpa using hx.le
      | succ j =>
        rw [List.getD_cons_succ, List.getD_cons_succ]
        exact ih j (by simpa using h)
    · rw [idxOfMax, if_neg hx]
      cases j with
      | zero => simp
      | succ j =>
        rw [List.getD_cons_succ, List.getD_cons_zero]
        exact le_trans (ih j (by simpa using h)) (not_lt.mp hx)

lemma idxOfMax_lt_length : ∀ (ys : List α), ys ≠ [] →
    idxOfMax ys < ys.length
  | [], h => absurd rfl h
  | [_], _ => by simp [idxOfMax]
  | x :: y :: ys, _ => by
    have ih := idxOfMax_lt_length (y :: ys) (by simp)
    by_cases hx : x < (y :: ys).getD (idxOfMax (y :: ys)) 0
    · rw [idxOfMax, if_pos hx]
      simpa using Nat.succ_lt_succ ih
    · rw [idxOfMax, if_neg hx]
      simp

lemma idxOfMax_pairwise_lt : ∀ (ys : List α),
    List.Pairwise (· < ·) ys → idxOfMax ys = ys.length - 1
  | [], _ => rfl
  | [_], _ => rfl
  | x :: y :: ys, h => by
    have ih := idxOfMax_pairwise_lt (y :: ys) h.of_cons
    have hlt : idxOfMax (y :: ys) < (y :: ys).length :=
      idxOfMax_lt_length (y :: ys) (by simp)
    have hmem : (y :: ys).getD (idxOfMax (y :: ys)) 0 ∈ y :: ys := by
      rw [List.getD_eq_getElem _ _ hlt]
      exact List.getElem_mem hlt
    have hx : x < (y :: ys).getD (idxOfMax (y :: ys)) 0 :=
      (List.pairwise_cons.mp h).1 _ hmem
    rw [idxOfMax, if_pos hx, ih]
    simp

lemma idxOfMax_pairwise_gt : ∀ (ys : List α),
    List.Pairwise (· > ·) ys → idxOfMax ys = 0
  | [], _ => rfl
  | [_], _ => rfl
  | x :: y :: ys, h => by
    have hlt : idxOfMax (y :: ys) < (y :: ys).length :=
      idxOfMax_lt_length (y :: ys) (by simp)
    have hmem : (y :: ys).getD (idxOfMax (y :: ys)) 0 ∈ y :: ys := by
      rw [List.getD_eq_getElem _ _ hlt]
      exact List.getElem_mem hlt
    have hx : ¬ x < (y :: ys).getD (idxOfMax (y :: ys)) 0 :=
      not_lt.mpr ((List.pairwise_cons.mp h).1 _ hmem).le
    rw [idxOfMax, if_neg hx]

end PipelineLemmas

/-- C5: `estimate_numax` is invariant under uniform rescaling of the
spectrum's power values by any positive constant. -/
theorem C5_numax_scale_invariance (s : List (ℚ × ℚ)) (W c : ℚ)
    (hc : 0 < c) :
    estimate_numax (scalePowers c s) W = estimate_numax s W := by
  rw [estimate_numax, estimate_numax, fminS_scale, fmaxS_scale,
    collapseACF_scale hc.ne']

theorem C5_numax_scale_invariance_witness :
    estimate_numax (scalePowers 2 exSpecPeak) 2 = estimate_numax exSpecPeak 2 :=
  C5_numax_scale_invariance exSpecPeak 2 2 (by norm_num)

/-- C8: too-short inputs are rejected with `InvalidSpectrumError` returned
as a value (the embedded functions are total): `flatten` rejects spectra
with fewer than 2 × filter_width points, and `estimate_numax` rejects
spectra whose frequency span is shorter than the window width. -/
theorem C8_short_spectrum_error :
    (∀ (s : List (ℚ × ℚ)) (w : ℕ), s.length < 2 * w →
      flatten s w = .error .invalidSpectrum) ∧
    (∀ (s : List (ℚ × ℚ)) (W : ℚ), fmaxS s - fminS s < W →
      estimate_numax s W = .error .invalidSpectrum) := by
  constructor
  · intro s w h
    rw [flatten, if_pos h]
  · intro s W h
    rw [estimate_numax, if_pos h]

theorem C8_short_spectrum_error_witness :
    flatten [((0 : ℚ), (1 : ℚ))] 1 = .error .invalidSpectrum ∧
    estimate_numax exSpec 10 = .error .invalidSpectrum :=
  ⟨C8_short_spectrum_error.1 [((0 : ℚ), (1 : ℚ))] 1 (by norm_num),
   C8_short_spectrum_error.2 exSpec 10
     (by norm_num [fmaxS, fminS, exSpec])⟩

/-- C9: every window position of `estimate_numax`'s sliding-window scan
lies fully inside the spectrum's frequency range: each accepted window
center keeps its full width inside [fmin, fmax], and every entry of the
collapsed autocorrelation map comes from such a center (excluded
positions contribute nothing, with no zero-padding). -/
theorem C9_windows_inside_bounds (s : List (ℚ × ℚ)) (W : ℚ) :
    (∀ c ∈ windowCenters s W,
      fminS s ≤ c - W / 2 ∧ c + W / 2 ≤ fmaxS s) ∧
    (∀ p ∈ collapseACF s W,
      fminS s ≤ p.1 - W / 2 ∧ p.1 + W / 2 ≤ fmaxS s) := by
  have hc : ∀ c ∈ windowCenters s W,
      fminS s ≤ c - W / 2 ∧ c + W / 2 ≤ fmaxS s := by
    intro c hmem
    have h := (List.mem_filter.mp hmem).2
    exact of_decide_eq_true h
  refine ⟨hc, fun p hp => ?_⟩
  rw [collapseACF] at hp
  obtain ⟨cen, hcen, rfl⟩ := List.mem_map.mp hp
  exact hc cen hcen

theorem C9_windows_inside_bounds_witness :
    fminS exSpec ≤ 1 - 2 / 2 ∧ 1 + 2 / 2 ≤ fmaxS exSpec :=
  (C9_windows_inside_bounds exSpec 2).1 1 (by
    have h : windowCenters exSpec 2 = [1, 2, 3] := by
      norm_num [windowCenters, exSpec, fminS, fmaxS, List.filter]
    rw [h]
    simp)

lemma exSpec_centers : windowCenters exSpec 2 = [1, 2, 3] := by
  norm_num [windowCenters, exSpec, fminS, fmaxS, List.filter]

lemma exSpec_seg1 : windowSegment exSpec 2 1 = [1, 2, 5] := by
  norm_num [windowSegment, exSpec, List.filter]

lemma exSpec_seg2 : windowSegment exSpec 2 2 = [2, 5, 2] := by
  norm_num [windowSegment, exSpec, List.filter]

lemma exSpec_seg3 : windowSegment exSpec 2 3 = [5, 2, 1] := by
  norm_num [windowSegment, exSpec, List.filter]

lemma exSpec_collapsed :
    (collapseACF exSpec 2).map Prod.snd = [47 / 30, 19 / 11, 47 / 30] := by
  have hr3 : List.range 3 = [0, 1, 2] := rfl
  rw [collapseACF, exSpec_centers]
  simp only [List.map_cons, List.map_nil]
  rw [exSpec_seg1, exSpec_seg2, exSpec_seg3]
  norm_num [collapsedVal, normACF, acf, hr3]

lemma exSpec_smoothed :
    smoothVals ((collapseACF exSpec 2).map Prod.snd) =
      [1087 / 660, 802 / 495, 1087 / 660] := by
  have hr3 : List.range 3 = [0, 1, 2] := rfl
  rw [exSpec_collapsed]
  norm_num [smoothVals, hr3]

lemma exSpec_interiorIdx :
    interiorIdx (smoothVals ((collapseACF exSpec 2).map Prod.snd)) = none := by
  rw [exSpec_smoothed]
  norm_num [interiorIdx, idxOfMax]

lemma exSpec_span : fmaxS exSpec - fminS exSpec = 4 := by
  norm_num [fmaxS, fminS, exSpec]

lemma exSpec_numax_eval : estimate_numax exSpec 2 = .error .noPeakFound := by
  rw [estimate_numax, if_neg (by rw [exSpec_span]; norm_num),
    exSpec_interiorIdx]

/-- C7 counterexample: the claim's "no interior maximum, i.e. monotonic
from edge to edge" equivalence fails on the code: on `exSpec` the smoothed
collapsed curve attains its maximum at an edge — so `estimate_numax` fails
with `NoPeakFoundError` — yet the curve is not monotonic in either
direction (it dips in the middle). -/
theorem C7_counterexample :
    estimate_numax exSpec 2 = .error .noPeakFound ∧
    ¬ (List.Pairwise (· ≤ ·)
        (smoothVals ((collapseACF exSpec 2).map Prod.snd)) ∨
       List.Pairwise (· ≥ ·)
        (smoothVals ((collapseACF exSpec 2).map Prod.snd))) := by
  refine ⟨exSpec_numax_eval, ?_⟩
  rw [exSpec_smoothed]
  norm_num [List.pairwise_cons]

/-- C7 (amended): when the spectrum is long enough for the window,
`estimate_numax` fails with `NoPeakFoundError` exactly when the smoothed
collapsed autocorrelation curve has no interior maximum (its maximum sits
at an edge) — in particular whenever the curve is strictly monotonic from
edge to edge — and otherwise returns the frequency at the global maximum
of the smoothed collapsed curve. -/
theorem C7_numax_no_interior_max (s : List (ℚ × ℚ)) (W : ℚ)
    (hspan : W ≤ fmaxS s - fminS s) :
    (estimate_numax s W = .error .noPeakFound ↔
      interiorIdx (smoothVals ((collapseACF s W).map Prod.snd)) = none) ∧
    (∀ ν, estimate_numax s W = .ok ν →
      (0 < idxOfMax (smoothVals ((collapseACF s W).map Prod.snd)) ∧
        idxOfMax (smoothVals ((collapseACF s W).map Prod.snd)) + 1 <
          (smoothVals ((collapseACF s W).map Prod.snd)).length) ∧
      ν = ((collapseACF s W).map Prod.fst).getD
            (idxOfMax (smoothVals ((collapseACF s W).map Prod.snd))) 0 ∧
      ∀ j < (smoothVals ((collapseACF s W).map Prod.snd)).length,
        (smoothVals ((collapseACF s W).map Prod.snd)).getD j 0 ≤
          (smoothVals ((collapseACF s W).map Prod.snd)).getD
            (idxOfMax (smoothVals ((collapseACF s W).map Prod.snd))) 0) ∧
    ((List.Pairwise (· < ·)
        (smoothVals ((collapseACF s W).map Prod.snd)) ∨
      List.Pairwise (· > ·)
        (smoothVals ((collapseACF s W).map Prod.snd))) →
      estimate_numax s W = .error .noPeakFound) := by
  have hno : ¬ (fmaxS s - fminS s < W) := not_lt.mpr hspan
  set sm := smoothVals ((collapseACF s W).map Prod.snd) with hsm
  cases hI : interiorIdx sm with
  | none =>
    have hres : estimate_numax s W = .error .noPeakFound := by
      rw [estimate_numax, if_neg hno, ← hsm, hI]
    refine ⟨by simp [hres, hI], fun ν hν => ?_, fun _ => hres⟩
    rw [hres] at hν
    exact absurd hν (by simp)
  | some i =>
    rw [interiorIdx] at hI
    by_cases hcond : 0 < idxOfMax sm ∧ idxOfMax sm + 1 < sm.length
    · rw [if_pos hcond, Option.some.injEq] at hI
      subst hI
      have hres : estimate_numax s W =
          .ok (((collapseACF s W).map Prod.fst).getD (idxOfMax sm) 0) := by
        rw [estimate_numax, if_neg hno, ← hsm, interiorIdx, if_pos hcond]
      refine ⟨by simp [hres], fun ν hν => ?_, fun hmono => ?_⟩
      · rw [hres, Except.ok.injEq] at hν
        subst hν
        exact ⟨hcond, rfl, fun j hj => le_idxOfMax sm j hj⟩
      · rcases hmono with hlt | hgt
        · have := idxOfMax_pairwise_lt sm hlt
          omega
        · have := idxOfMax_pairwise_gt sm hgt
          omega
    · rw [if_neg hcond] at hI
      exact absurd hI (by simp)

theorem C7_numax_no_interior_max_witness :
    estimate_numax exSpec 2 = .error .noPeakFound :=
  (C7_numax_no_interior_max exSpec 2
      (by rw [exSpec_span]; norm_num)).1.mpr exSpec_interiorIdx

section ClosestLemmas

variable {α : Type} [LinearOrderedField α]

lemma closestTo_none : ∀ {t : α} {l : List α}, closestTo t l = none → l = []
  | _, [], _ => rfl
  | t, a :: l, h => by
    rw [closestTo] at h
    cases hc : closestTo t l with
    | none =>
      rw [hc] at h
      exact absurd h (by simp)
    | some f =>
      rw [hc] at h
      dsimp only at h
      by_cases hle : |a - t| ≤ |f - t|
      · rw [if_pos hle] at h
        exact absurd h (by simp)
      · rw [if_neg hle] at h
        exact absurd h (by simp)

lemma closestTo_mem : ∀ {t : α} {l : List α} {d : α},
    closestTo t l = some d → d ∈ l
  | t, [], d, h => by
    rw [closestTo] at h
    exact absurd h (by simp)
  | t, a :: l, d, h => by
    rw [closestTo] at h
    cases hc : closestTo t l with
    | none =>
      rw [hc] at h
      rw [Option.some.injEq] at h
      subst h
      exact List.mem_cons_self a l
    | some f =>
      rw [hc] at h
      dsimp only at h
      by_cases hle : |a - t| ≤ |f - t|
      · rw [if_pos hle, Option.some.injEq] at h
        subst h
        exact List.mem_cons_self a l
      · rw [if_neg hle, Option.some.injEq] at h
        subst h
        exact List.mem_cons_of_mem a (closestTo_mem hc)

lemma closestTo_min : ∀ {t : α} {l : List α} {d : α},
    closestTo t l = some d → ∀ e ∈ l, |d - t| ≤ |e - t|
  | t, [], d, h => by
    rw [closestTo] at h
    exact absurd h (by simp)
  | t, a :: l, d, h => by
    rw [closestTo] at h
    cases hc : closestTo t l with
    | none =>
      rw [hc] at h
      rw [Option.some.injEq] at h
      subst h
      have hl : l = [] := closestTo_none hc
      subst hl
      intro e he
      rw [List.mem_singleton] at he
      subst he
      exact le_refl _
    | some f =>
      rw [hc] at h
      dsimp only at h
      have ihmin := closestTo_min hc
      by_cases hle : |a - t| ≤ |f - t|
      · rw [if_pos hle, Option.some.injEq] at h
        subst h
        intro e he
        rcases List.mem_cons.mp he with rfl | he
        · exact le_refl _
        · exact le_trans hle (ihmin e he)
      · rw [if_neg hle, Option.some.injEq] at h
        subst h
        intro e he
        rcases List.mem_cons.mp he with rfl | he
        · exact (not_le.mp hle).le
        · exact ihmin e he

end ClosestLemmas

/-- C3: `estimate_deltanu` restricts its autocorrelation analysis to the
sub-spectrum spanning [numax − FWHM/2, numax + FWHM/2] — a band of one
FWHM total width centered on numax, whose members are exactly the
spectrum points with frequency in that band — with FWHM computed from numax
by the regime-dependent empirical relation (0.25·numax for main-sequence
stars, 0.66·numax^0.88 for red giants). -/
theorem C3_deltanu_region (s : List (ℝ × ℝ)) (ν : ℝ) (r : Regime) :
    estimate_deltanu s ν r =
      deltanuFromRegion
        (subSpectrum s (ν - fwhmOf r ν / 2) (ν + fwhmOf r ν / 2)) ν ∧
    (∀ p : ℝ × ℝ,
      p ∈ subSpectrum s (ν - fwhmOf r ν / 2) (ν + fwhmOf r ν / 2) ↔
        p ∈ s ∧ ν - fwhmOf r ν / 2 ≤ p.1 ∧ p.1 ≤ ν + fwhmOf r ν / 2) ∧
    ((ν + fwhmOf r ν / 2) - (ν - fwhmOf r ν / 2) = fwhmOf r ν ∧
      ((ν - fwhmOf r ν / 2) + (ν + fwhmOf r ν / 2)) / 2 = ν) ∧
    fwhmOf .mainSequence ν = 0.25 * ν ∧
    fwhmOf .redGiant ν = 0.66 * ν ^ (0.88 : ℝ) := by
  refine ⟨rfl, fun p => ?_, ⟨by ring, by ring⟩, rfl, rfl⟩
  simp [subSpectrum, List.mem_filter, and_assoc]

/-- C4: whenever `estimate_deltanu` succeeds, the returned deltanu is the
lag of a local maximum of the restricted-region autocorrelation curve, it
lies in the search neighborhood of the empirical prior
0.294·numax^0.772, and among all local-maximum lags in that neighborhood
it is the one closest to the prior. -/
theorem C4_deltanu_closest_peak (s : List (ℝ × ℝ)) (ν : ℝ) (r : Regime)
    (d : ℝ) (h : estimate_deltanu s ν r = .ok d) :
    d ∈ peakLags (acfCurve
        (subSpectrum s (ν - fwhmOf r ν / 2) (ν + fwhmOf r ν / 2))) ∧
    deltanuPrior ν / 2 ≤ d ∧ d ≤ 3 * deltanuPrior ν / 2 ∧
    (∀ e ∈ peakLags (acfCurve
        (subSpectrum s (ν - fwhmOf r ν / 2) (ν + fwhmOf r ν / 2))),
      deltanuPrior ν / 2 ≤ e → e ≤ 3 * deltanuPrior ν / 2 →
        |d - deltanuPrior ν| ≤ |e - deltanuPrior ν|) ∧
    deltanuPrior ν = 0.294 * ν ^ (0.772 : ℝ) := by
  rw [estimate_deltanu, deltanuFromRegion] at h
  cases hc : closestTo (deltanuPrior ν)
      ((peakLags (acfCurve
        (subSpectrum s (ν - fwhmOf r ν / 2) (ν + fwhmOf r ν / 2)))).filter
        (fun e => decide (deltanuPrior ν / 2 ≤ e ∧
          e ≤ 3 * deltanuPrior ν / 2))) with
  | none =>
    rw [hc] at h
    exact absurd h (by simp)
  | some f =>
    rw [hc] at h
    rw [Except.ok.injEq] at h
    subst h
    have hmem := closestTo_mem hc
    have hmin := closestTo_min hc
    have hmem' := List.mem_filter.mp hmem
    have hband := of_decide_eq_true hmem'.2
    refine ⟨hmem'.1, hband.1, hband.2, fun e he h1 h2 => ?_, rfl⟩
    exact hmin e (List.mem_filter.mpr ⟨he, decide_eq_true ⟨h1, h2⟩⟩)

lemma exD_region :
    subSpectrum exDSpec (1 - fwhmOf .mainSequence 1 / 2)
      (1 + fwhmOf .mainSequence 1 / 2) = exDSpec := by
  norm_num [subSpectrum, exDSpec, fwhmOf, List.filter]

lemma exD_curve :
    acfCurve exDSpec = [(0.08, 0), (0.16, 1), (0.24, 0)] := by
  have hr3 : List.range 3 = [0, 1, 2] := rfl
  norm_num [acfCurve, exDSpec, binWidth, acf, hr3]

lemma exD_peakLags :
    peakLags [((0.08 : ℝ), 0), (0.16, 1), (0.24, 0)] = [0.16] := by
  have hr3 : List.range 3 = [0, 1, 2] := rfl
  norm_num [peakLags, isPeakAt, hr3, List.filter]

lemma exD_prior : deltanuPrior 1 = 0.294 := by
  norm_num [deltanuPrior, Real.one_rpow]

lemma exD_eval :
    estimate_deltanu exDSpec 1 .mainSequence = .ok 0.16 := by
  rw [estimate_deltanu, exD_region, deltanuFromRegion, exD_curve,
    exD_peakLags, exD_prior]
  norm_num [List.filter, closestTo]

theorem C4_deltanu_closest_peak_witness :
    estimate_deltanu exDSpec 1 .mainSequence = .ok 0.16 ∧
    (0.16 : ℝ) ∈ peakLags (acfCurve
      (subSpectrum exDSpec (1 - fwhmOf .mainSequence 1 / 2)
        (1 + fwhmOf .mainSequence 1 / 2))) :=
  ⟨exD_eval, (C4_deltanu_closest_peak exDSpec 1 .mainSequence 0.16 exD_eval).1⟩

end Seismology
